import Mathlib

/-!
Shallow embedding of the navigation core of the `web-ar-navigation` repository.

Embedded source files:
* `src/utils/aStarAlgorithm.ts` — A* planner (`aStar`, `createGraph`);
* `src/utils/navigationUtils.ts` — distance / bearing helpers;
* `src/services/GeoNavigationService.ts` — navigation tracker
  (`updateNavigationLogic`);
* `ARCoreService` (position estimator) — `fuseGPSData`,
  `updateHeadingFromRotation`.

JavaScript numbers are modelled as real numbers.  The `while` loop of `aStar`
is modelled with explicit fuel: the loop result type is
`Option (Option (List PathPoint))` where `none` means the fuel ran out,
`some none` is the `null` ("no path found") result of the source and
`some (some p)` is a found path.
-/

noncomputable section
open scoped Classical

/-- A `{x, y}` path point (`PathPoint` in the source). -/
structure PathPoint where
  x : ℝ
  y : ℝ

/-- `NodeData` — planar coordinates of a graph node. -/
structure NodeData where
  x : ℝ
  y : ℝ

/-- `GraphEdge`.  The source field `from` is a reserved word in Lean, so the
identifier fields are called `fromId` / `toId`. -/
structure GraphEdge where
  fromId : String
  toId : String
  distance : ℝ

/-- `Graph` — the `nodes` record is modelled as a lookup function. -/
structure Graph where
  nodes : String → Option NodeData
  edges : List GraphEdge

/-- Euclidean distance between `(x1, y1)` and `(x2, y2)`:
`Math.sqrt(dx * dx + dy * dy)`. -/
def euclDist (x1 y1 x2 y2 : ℝ) : ℝ :=
  Real.sqrt ((x2 - x1) ^ 2 + (y2 - y1) ^ 2)

/-- The `Node` class of the A* implementation.  A node with `parent = null` is
`root`, a node with a parent is `child` (the fields are, in order:
`id, x, y, g, h, f`, then the parent). -/
inductive ANode : Type where
  | root (id : String) (x y g h f : ℝ)
  | child (id : String) (x y g h f : ℝ) (parent : ANode)

def ANode.id : ANode → String
  | .root i _ _ _ _ _ => i
  | .child i _ _ _ _ _ _ => i

def ANode.x : ANode → ℝ
  | .root _ x _ _ _ _ => x
  | .child _ x _ _ _ _ _ => x

def ANode.y : ANode → ℝ
  | .root _ _ y _ _ _ => y
  | .child _ _ y _ _ _ _ => y

def ANode.g : ANode → ℝ
  | .root _ _ _ g _ _ => g
  | .child _ _ _ g _ _ _ => g

def ANode.h : ANode → ℝ
  | .root _ _ _ _ h _ => h
  | .child _ _ _ _ h _ _ => h

/-- `getF()` returns `g + h`. -/
def ANode.getF : ANode → ℝ
  | .root _ _ _ g h _ => g + h
  | .child _ _ _ g h _ _ => g + h

/-- `heuristic(nodeA, nodeB)` — Euclidean distance between two nodes. -/
def heuristic (a b : ANode) : ℝ := euclDist a.x a.y b.x b.y

/-- `reconstructPath(node)` — follow the parent chain, prepending each
`{x, y}` (the source uses `unshift`, so the root ends up first). -/
def reconstructPath : ANode → List PathPoint
  | .root _ x y _ _ _ => [⟨x, y⟩]
  | .child _ x y _ _ _ p => reconstructPath p ++ [⟨x, y⟩]

/-- The open-set pop of the source (lines 122-138): scan for the entry with
the lowest `f` keeping the first strict minimum, return it together with the
remaining entries in their original order (the `splice`). -/
def pickMinF : ANode → List ANode → ANode × List ANode
  | cur, [] => (cur, [])
  | cur, a :: rest =>
    if a.getF < cur.getF then
      let p := pickMinF a rest
      (p.1, cur :: p.2)
    else
      let p := pickMinF cur rest
      (p.1, a :: p.2)

/-- Construction of the neighbor node in the expansion loop:
`neighbor.g = current.g + heuristic(current, neighbor)`,
`neighbor.h = heuristic(neighbor, goal)`, `neighbor.f = g + h`,
`neighbor.parent = current`. -/
def mkNeighbor (goalNode current : ANode) (neighborId : String) (nd : NodeData) : ANode :=
  let dist := euclDist current.x current.y nd.x nd.y
  let ng := current.g + dist
  let nh := euclDist nd.x nd.y goalNode.x goalNode.y
  .child neighborId nd.x nd.y ng nh (ng + nh) current

/-- One step of the neighbor loop (lines 146-180) for a single edge incident
to `current`: skip closed neighbors and neighbors without node data, skip when
an open entry with the same id and a no-worse `g` exists, otherwise push. -/
def expandStep (g : Graph) (goalNode : ANode) (closed : List String) (current : ANode)
    (op : List ANode) (e : GraphEdge) : List ANode :=
  let neighborId := if e.fromId = current.id then e.toId else e.fromId
  if neighborId ∈ closed then op
  else
    match g.nodes neighborId with
    | none => op
    | some nd =>
      let neighbor := mkNeighbor goalNode current neighborId nd
      match op.find? (fun n => n.id == neighborId) with
      | some existing => if existing.g ≤ neighbor.g then op else op ++ [neighbor]
      | none => op ++ [neighbor]

/-- The whole neighbor loop: fold `expandStep` over the edges incident to
`current` (the `filter` at lines 142-144). -/
def expandNeighbors (g : Graph) (goalNode : ANode) (closed : List String)
    (current : ANode) (op : List ANode) : List ANode :=
  (g.edges.filter (fun e => e.fromId == current.id || e.toId == current.id)).foldl
    (expandStep g goalNode closed current) op

/-- The `while (openSet.length > 0)` loop of `aStar`, with explicit fuel. -/
def aStarLoop (g : Graph) (goalId : String) (goalNode : ANode) :
    ℕ → List ANode → List String → Option (Option (List PathPoint))
  | 0, _, _ => none
  | _ + 1, [], _ => some none
  | fuel + 1, a :: rest, closed =>
    let pk := pickMinF a rest
    let current := pk.1
    if current.id = goalId then some (some (reconstructPath current))
    else
      let closed1 := current.id :: closed
      aStarLoop g goalId goalNode fuel
        (expandNeighbors g goalNode closed1 current pk.2) closed1

/-- `aStar(graph, startId, goalId)` (after the structural check): return `null`
(`some none`) when either endpoint is missing, otherwise run the loop from the
start node.  Both the start and the goal node are constructed with
`g = h = f = 0` and no parent. -/
def aStar (g : Graph) (startId goalId : String) (fuel : ℕ) :
    Option (Option (List PathPoint)) :=
  match g.nodes startId, g.nodes goalId with
  | some sd, some gd =>
    aStarLoop g goalId (.root goalId gd.x gd.y 0 0 0) fuel
      [.root startId sd.x sd.y 0 0 0] []
  | _, _ => some none

/-- The raw argument of `aStar` before the structural check
`if (!graph || !graph.nodes || !graph.edges) throw ...`: the whole argument
and both fields may be absent at run time. -/
structure RawGraph where
  nodesField : Option (String → Option NodeData)
  edgesField : Option (List GraphEdge)

/-- `aStar` including the structural check; `Except.error` models the thrown
`Error('Invalid graph structure')`. -/
def aStarChecked (graph : Option RawGraph) (startId goalId : String) (fuel : ℕ) :
    Except String (Option (Option (List PathPoint))) :=
  match graph with
  | none => .error "Invalid graph structure"
  | some gr =>
    match gr.nodesField, gr.edgesField with
    | some ns, some es => .ok (aStar ⟨ns, es⟩ startId goalId fuel)
    | _, _ => .error "Invalid graph structure"

/-- `Location` objects fed to `createGraph`. -/
structure Location where
  id : String
  x : ℝ
  y : ℝ

/-- `Connection` objects fed to `createGraph`. -/
structure Connection where
  fromId : String
  toId : String

/-- `createGraph(locations, connections)`: build the node record (later
assignments overwrite earlier ones) and keep exactly the connections whose two
endpoints are found among the locations, with the Euclidean distance of the
first matching locations as the edge cost. -/
def createGraph (locations : List Location) (connections : List Connection) : Graph :=
  let nodes : String → Option NodeData :=
    locations.foldl (fun acc l => fun i => if i = l.id then some ⟨l.x, l.y⟩ else acc i)
      (fun _ => none)
  let edges : List GraphEdge :=
    connections.foldl (fun es c =>
      match locations.find? (fun l => l.id == c.fromId),
            locations.find? (fun l => l.id == c.toId) with
      | some lf, some lt =>
        es ++ [⟨c.fromId, c.toId, Real.sqrt ((lt.x - lf.x) ^ 2 + (lt.y - lf.y) ^ 2)⟩]
      | _, _ => es) []
  ⟨nodes, edges⟩

/-- Two node identifiers are adjacent when some edge connects them (edges are
used in both directions by the neighbor filter of `aStar`). -/
def Adj (g : Graph) (a b : String) : Prop :=
  ∃ e ∈ g.edges, (e.fromId = a ∧ e.toId = b) ∨ (e.toId = a ∧ e.fromId = b)

/-- A valid path in the graph from `startId` to a target node: a nonempty node
sequence starting at `startId`, every node carrying data, consecutive nodes
adjacent. -/
inductive IsPathTo (g : Graph) (startId : String) : String → List String → Prop where
  | single (d : NodeData) : g.nodes startId = some d → IsPathTo g startId startId [startId]
  | snoc {u t : String} {P : List String} (d : NodeData) :
      IsPathTo g startId u P → Adj g u t → g.nodes t = some d →
      IsPathTo g startId t (P ++ [t])

/-- Coordinates of a node sequence (missing nodes give a dummy point; valid
paths never hit that case). -/
def coordsOf (g : Graph) (ids : List String) : List PathPoint :=
  ids.map fun i =>
    match g.nodes i with
    | some d => ⟨d.x, d.y⟩
    | none => ⟨0, 0⟩

/-- Total cost of a coordinate path: sum of the straight-line distances of
consecutive points. -/
def pointsCost : List PathPoint → ℝ
  | [] => 0
  | [_] => 0
  | a :: b :: rest => euclDist a.x a.y b.x b.y + pointsCost (b :: rest)

/-- Total cost of a node-id path. -/
def pathCost (g : Graph) (ids : List String) : ℝ := pointsCost (coordsOf g ids)

/-- Coordinates of one node id (same convention as `coordsOf`). -/
def coordPt (g : Graph) (i : String) : PathPoint :=
  match g.nodes i with
  | some d => ⟨d.x, d.y⟩
  | none => ⟨0, 0⟩

/-- The node-id sequence of a parent chain, root first. -/
def chainIds : ANode → List String
  | .root i _ _ _ _ _ => [i]
  | .child i _ _ _ _ _ p => chainIds p ++ [i]

/-- Well-formedness of the `Node` objects the A* loop ever stores in its open
set, for a run with start data `sd` and goal data `gd`: the parent chain is a
valid walk from the start node, `g` is its accumulated cost, `h` the
straight-line distance to the goal (the initial start node instead carries
`g = h = 0`) and the coordinates agree with the node record. -/
inductive ChainOK (g : Graph) (startId : String) (sd gd : NodeData) : ANode → Prop where
  | start : ChainOK g startId sd gd (.root startId sd.x sd.y 0 0 0)
  | step {par : ANode} {nid : String} {nd : NodeData} :
      ChainOK g startId sd gd par → Adj g par.id nid → g.nodes nid = some nd →
      ChainOK g startId sd gd
        (.child nid nd.x nd.y (par.g + euclDist par.x par.y nd.x nd.y)
          (euclDist nd.x nd.y gd.x gd.y)
          ((par.g + euclDist par.x par.y nd.x nd.y) + euclDist nd.x nd.y gd.x gd.y) par)

/-- The loop invariant of `aStarLoop`: every open entry has a well-formed
chain; while the start is not closed its initial entry is still open; the goal
is never closed; and for every closed node `id` and open-eligible neighbor `v`
of it, the open set holds an entry for `v` whose `g` is at most (cost of any
path to `id`) + (edge cost `id`-`v`). -/
def AStarInv (g : Graph) (startId goalId : String) (sd gd : NodeData)
    (op : List ANode) (closed : List String) : Prop :=
  (∀ c ∈ op, ChainOK g startId sd gd c) ∧
  (startId ∉ closed → (ANode.root startId sd.x sd.y 0 0 0) ∈ op) ∧
  goalId ∉ closed ∧
  (∀ id ∈ closed, ∀ v, Adj g id v → v ∉ closed → ∀ vd, g.nodes v = some vd →
    ∀ P, IsPathTo g startId id P → ∀ ud, g.nodes id = some ud →
      ∃ c ∈ op, c.id = v ∧ c.g ≤ pathCost g P + euclDist ud.x ud.y vd.x vd.y)

/-- Truncation toward zero, as the JavaScript `%` operator converts its
operands' quotient. -/
def jsTrunc (x : ℝ) : ℝ := if x < 0 then ⌈x⌉ else ⌊x⌋

/-- The JavaScript remainder `a % b` (the result carries the dividend sign). -/
def jsMod (a b : ℝ) : ℝ := a - b * jsTrunc (a / b)

/-- `Math.atan2(y, x)`. -/
def jsAtan2 (yv xv : ℝ) : ℝ :=
  if 0 < xv then Real.arctan (yv / xv)
  else if xv < 0 then
    (if 0 ≤ yv then Real.arctan (yv / xv) + Real.pi else Real.arctan (yv / xv) - Real.pi)
  else
    (if 0 < yv then Real.pi / 2 else if yv < 0 then -(Real.pi / 2) else 0)

/-- `calculateGPSDistance(lat1, lon1, lat2, lon2)` — Haversine distance in
meters with Earth radius `6371e3`. -/
def calculateGPSDistance (lat1 lon1 lat2 lon2 : ℝ) : ℝ :=
  let R : ℝ := 6371e3
  let phi1 := lat1 * Real.pi / 180
  let phi2 := lat2 * Real.pi / 180
  let dphi := (lat2 - lat1) * Real.pi / 180
  let dlam := (lon2 - lon1) * Real.pi / 180
  let a := Real.sin (dphi / 2) * Real.sin (dphi / 2) +
    Real.cos phi1 * Real.cos phi2 * (Real.sin (dlam / 2) * Real.sin (dlam / 2))
  let c := 2 * jsAtan2 (Real.sqrt a) (Real.sqrt (1 - a))
  R * c

/-- `calculateGPSBearing(lat1, lon1, lat2, lon2)` — great-circle bearing in
degrees. -/
def calculateGPSBearing (lat1 lon1 lat2 lon2 : ℝ) : ℝ :=
  let phi1 := lat1 * Real.pi / 180
  let phi2 := lat2 * Real.pi / 180
  let dlam := (lon2 - lon1) * Real.pi / 180
  let yv := Real.sin dlam * Real.cos phi2
  let xv := Real.cos phi1 * Real.sin phi2 - Real.sin phi1 * Real.cos phi2 * Real.cos dlam
  let theta := jsAtan2 yv xv
  jsMod (theta * 180 / Real.pi + 360) 360

/-- `GeoPosition` — `accuracy` is optional. -/
structure GeoPosition where
  latitude : ℝ
  longitude : ℝ
  accuracy : Option ℝ

/-- `GeoWaypoint` (the optional string id is irrelevant to the logic). -/
structure GeoWaypoint where
  latitude : ℝ
  longitude : ℝ

/-- `NavigationState` of GeoNavigationService. -/
structure NavState where
  currentLocation : GeoPosition
  heading : ℝ
  nextWaypoint : Option GeoWaypoint
  distanceToNext : ℝ
  bearingToNext : ℝ
  relativeBearing : ℝ
  currentStepIndex : ℕ
  totalSteps : ℕ
  isArrived : Bool

/-- `while (rel > 180) rel -= 360`, with fuel; a single iteration suffices for
every difference of a bearing and a heading that both lie in `[0, 360)`. -/
def wrapDown : ℕ → ℝ → ℝ
  | 0, r => r
  | fuel + 1, r => if r > 180 then wrapDown fuel (r - 360) else r

/-- `while (rel < -180) rel += 360`, with fuel. -/
def wrapUp : ℕ → ℝ → ℝ
  | 0, r => r
  | fuel + 1, r => if r < -180 then wrapUp fuel (r + 360) else r

/-- The relative-bearing normalization of `updateNavigationLogic`
(lines 161-163). -/
def normalizeRel (r : ℝ) : ℝ := wrapUp 2 (wrapDown 2 r)

/-- `current.accuracy || 5` — both `undefined` and `0` are falsy. -/
def jsAccuracyOr5 (acc : Option ℝ) : ℝ :=
  match acc with
  | none => 5
  | some a => if a = 0 then 5 else a

/-- `updateNavigationLogic()` of GeoNavigationService, as a function of the
waypoint path, the current step index and the current state; it returns the
new step index together with the new state.  The recursive call models the
immediate re-evaluation against the new target after an advancement. -/
def updateNavigationLogic (path : List GeoWaypoint) (idx : ℕ) (st : NavState) :
    ℕ × NavState :=
  if path = [] then (idx, st)
  else if hlen : path.length ≤ idx then (idx, { st with isArrived := true })
  else
    let current := st.currentLocation
    let target := path.getD idx ⟨0, 0⟩
    let distance := calculateGPSDistance current.latitude current.longitude
      target.latitude target.longitude
    let bearing := calculateGPSBearing current.latitude current.longitude
      target.latitude target.longitude
    let rel := normalizeRel (bearing - st.heading)
    let st1 : NavState :=
      { st with nextWaypoint := some target, distanceToNext := distance,
                bearingToNext := bearing, totalSteps := path.length,
                currentStepIndex := idx, relativeBearing := rel }
    let gpsAccuracy := jsAccuracyOr5 current.accuracy
    let dynamicThreshold := max 10 (gpsAccuracy + 5)
    let threshold : ℝ := if idx = path.length - 1 then 5 else dynamicThreshold
    if distance < threshold then
      if hfin : idx = path.length - 1 then
        (if distance < 8 then (idx, { st1 with isArrived := true }) else (idx, st1))
      else updateNavigationLogic path (idx + 1) st1
    else (idx, st1)
termination_by path.length - idx
decreasing_by simp only [not_le] at hlen; omega

/-- `updateHeadingFromRotation` of the position estimator: wrap the raw
difference, blend with `headingSmoothing = 0.2`, renormalize into `[0, 360)`.
(`rotation.alpha || 0` is the identity on every number except `NaN`.) -/
def updateHeadingFromRotation (heading alpha : ℝ) : ℝ :=
  let rawHeading := alpha
  let d0 := rawHeading - heading
  let d1 := if d0 > 180 then d0 - 360 else d0
  let d2 := if d1 < -180 then d1 + 360 else d1
  jsMod ((heading + d2 * (0.2 : ℝ)) + 360) 360

/-- The calibration anchor `startingGPS` (GPS point mapped to a map point). -/
structure StartingGPS where
  latitude : ℝ
  longitude : ℝ
  x : ℝ
  y : ℝ

/-- `fuseGPSData` after calibration: project the fix into map coordinates via
the flat-Earth approximation around the anchor, then blend by accuracy
(weight 0.8 below 5 m, 0.5 below 15 m, ignored otherwise). -/
def fuseGPSData (startingGPS : StartingGPS) (pos : ℝ × ℝ)
    (fixLat fixLon accuracy : ℝ) : ℝ × ℝ :=
  let latDiff := fixLat - startingGPS.latitude
  let lonDiff := fixLon - startingGPS.longitude
  let metersPerDegLat : ℝ := 111320
  let metersPerDegLon : ℝ := 111320 * Real.cos (startingGPS.latitude * Real.pi / 180)
  let offsetX := lonDiff * metersPerDegLon
  let offsetY := latDiff * metersPerDegLat
  let gpsMapX := startingGPS.x + offsetX
  let gpsMapY := startingGPS.y + offsetY
  if accuracy < 15 then
    let gpsWeight : ℝ := if accuracy < 5 then 0.8 else 0.5
    (pos.1 * (1 - gpsWeight) + gpsMapX * gpsWeight,
     pos.2 * (1 - gpsWeight) + gpsMapY * gpsWeight)
  else pos

/-! ## Lemmas about `createGraph` -/

theorem nodesFold_eq_none (locations : List Location) (base : String → Option NodeData)
    (i : String) :
    (locations.foldl (fun acc l => fun j => if j = l.id then some ⟨l.x, l.y⟩ else acc j)
        base) i = none ↔
      base i = none ∧ ∀ l ∈ locations, l.id ≠ i := by
  induction locations generalizing base with
  | nil => simp
  | cons l ls ih =>
    rw [List.foldl_cons, ih]
    by_cases hil : i = l.id
    · simp [hil]
    · have : l.id ≠ i := fun h => hil h.symm
      simp [hil, this, and_assoc]

theorem createGraph_nodes_def (locations : List Location) (connections : List Connection) :
    (createGraph locations connections).nodes =
      locations.foldl (fun acc l => fun j => if j = l.id then some ⟨l.x, l.y⟩ else acc j)
        (fun _ => none) := rfl

theorem edgesFold_mem (locations : List Location) (cs : List Connection) :
    ∀ (acc : List GraphEdge) (e : GraphEdge),
      e ∈ cs.foldl (fun es c =>
        match locations.find? (fun l => l.id == c.fromId),
              locations.find? (fun l => l.id == c.toId) with
        | some lf, some lt =>
          es ++ [⟨c.fromId, c.toId, Real.sqrt ((lt.x - lf.x) ^ 2 + (lt.y - lf.y) ^ 2)⟩]
        | _, _ => es) acc →
      e ∈ acc ∨ ∃ c ∈ cs, ∃ lf, locations.find? (fun l => l.id == c.fromId) = some lf ∧
        ∃ lt, locations.find? (fun l => l.id == c.toId) = some lt ∧
          e = ⟨c.fromId, c.toId, Real.sqrt ((lt.x - lf.x) ^ 2 + (lt.y - lf.y) ^ 2)⟩ := by
  induction cs with
  | nil => intro acc e he; exact Or.inl he
  | cons c cs ih =>
    intro acc e he
    rw [List.foldl_cons] at he
    rcases ih _ e he with hacc | ⟨c', hc', rest⟩
    · cases hf : locations.find? (fun l => l.id == c.fromId) with
      | none =>
        rw [hf] at hacc
        exact Or.inl hacc
      | some lf =>
        cases ht : locations.find? (fun l => l.id == c.toId) with
        | none =>
          rw [hf, ht] at hacc
          exact Or.inl hacc
        | some lt =>
          rw [hf, ht] at hacc
          simp only [List.mem_append, List.mem_singleton] at hacc
          rcases hacc with hacc | rfl
          · exact Or.inl hacc
          · exact Or.inr ⟨c, List.mem_cons_self c cs, lf, hf, lt, ht, rfl⟩
    · exact Or.inr ⟨c', List.mem_cons_of_mem c hc', rest⟩

theorem createGraph_edges_def (locations : List Location) (connections : List Connection) :
    (createGraph locations connections).edges =
      connections.foldl (fun es c =>
        match locations.find? (fun l => l.id == c.fromId),
              locations.find? (fun l => l.id == c.toId) with
        | some lf, some lt =>
          es ++ [⟨c.fromId, c.toId, Real.sqrt ((lt.x - lf.x) ^ 2 + (lt.y - lf.y) ^ 2)⟩]
        | _, _ => es) [] := rfl

theorem nodesFold_ne_none_of_mem (locations : List Location) (l : Location)
    (hl : l ∈ locations) (connections : List Connection) :
    (createGraph locations connections).nodes l.id ≠ none := by
  rw [createGraph_nodes_def, Ne, nodesFold_eq_none]
  rintro ⟨-, hall⟩
  exact hall l hl rfl

/-- Claim C9: every edge produced by `createGraph` references two node
identifiers present in the node mapping, and a connection one of whose
endpoints matches no location contributes no edge (it is dropped, construction
does not abort). -/
theorem createGraph_edges_reference_nodes (locations : List Location)
    (connections : List Connection) :
    (∀ e ∈ (createGraph locations connections).edges,
        (createGraph locations connections).nodes e.fromId ≠ none ∧
        (createGraph locations connections).nodes e.toId ≠ none) ∧
    (∀ (cs1 cs2 : List Connection) (c : Connection),
        (locations.find? (fun l => l.id == c.fromId) = none ∨
          locations.find? (fun l => l.id == c.toId) = none) →
        (createGraph locations (cs1 ++ c :: cs2)).edges =
          (createGraph locations (cs1 ++ cs2)).edges) := by
  constructor
  · intro e he
    rw [createGraph_edges_def] at he
    rcases edgesFold_mem locations connections [] e he with h | ⟨c, -, lf, hf, lt, ht, rfl⟩
    · simp at h
    · have hlf : lf ∈ locations ∧ lf.id = c.fromId := by
        have h1 := List.mem_of_find?_eq_some hf
        have h2 := List.find?_some hf
        simp only [beq_iff_eq] at h2
        exact ⟨h1, h2⟩
      have hlt : lt ∈ locations ∧ lt.id = c.toId := by
        have h1 := List.mem_of_find?_eq_some ht
        have h2 := List.find?_some ht
        simp only [beq_iff_eq] at h2
        exact ⟨h1, h2⟩
      constructor
      · have := nodesFold_ne_none_of_mem locations lf hlf.1 connections
        rwa [hlf.2] at this
      · have := nodesFold_ne_none_of_mem locations lt hlt.1 connections
        rwa [hlt.2] at this
  · intro cs1 cs2 c hnone
    rw [createGraph_edges_def, createGraph_edges_def, List.foldl_append, List.foldl_append,
      List.foldl_cons]
    congr 1
    rcases hnone with h | h
    · rw [h]
    · rw [h]
      cases hf : locations.find? (fun l => l.id == c.fromId) with
      | none => rfl
      | some lf => rfl

/-- Witness for C9: a concrete two-location graph; the kept connection's edge
endpoints are present, and a connection naming the unknown "C" is dropped. -/
theorem createGraph_edges_reference_nodes_witness :
    ((createGraph [⟨"A", 0, 0⟩, ⟨"B", 3, 4⟩] [⟨"A", "B"⟩]).nodes "A" ≠ none ∧
      (createGraph [⟨"A", 0, 0⟩, ⟨"B", 3, 4⟩] [⟨"A", "B"⟩]).nodes "B" ≠ none) ∧
    (createGraph [⟨"A", 0, 0⟩, ⟨"B", 3, 4⟩] ([⟨"A", "B"⟩] ++ ⟨"A", "C"⟩ :: [])).edges =
      (createGraph [⟨"A", 0, 0⟩, ⟨"B", 3, 4⟩] ([⟨"A", "B"⟩] ++ [])).edges := by
  constructor
  · exact (createGraph_edges_reference_nodes [⟨"A", 0, 0⟩, ⟨"B", 3, 4⟩] [⟨"A", "B"⟩]).1
      ⟨"A", "B", Real.sqrt ((3 - 0) ^ 2 + (4 - 0) ^ 2)⟩
      (List.mem_singleton.mpr rfl)
  · exact (createGraph_edges_reference_nodes [⟨"A", 0, 0⟩, ⟨"B", 3, 4⟩]
        ([⟨"A", "B"⟩] ++ ⟨"A", "C"⟩ :: [])).2
      [⟨"A", "B"⟩] [] ⟨"A", "C"⟩ (Or.inr rfl)

/-! ## The structural check of `aStar` -/

/-- Claim C10: `aStar` throws `Invalid graph structure` exactly when its graph
argument is absent or lacks the `nodes` or `edges` field; on a structurally
valid graph it always returns a (possibly NotFound) result, so the structural
check is the only failure mode besides NotFound. -/
theorem aStarChecked_throw_iff_invalid (graph : Option RawGraph) (s t : String) (fuel : ℕ) :
    ((graph = none ∨ ∃ gr, graph = some gr ∧ (gr.nodesField = none ∨ gr.edgesField = none)) →
        aStarChecked graph s t fuel = .error "Invalid graph structure") ∧
    (∀ gr ns es, graph = some gr → gr.nodesField = some ns → gr.edgesField = some es →
        aStarChecked graph s t fuel = .ok (aStar ⟨ns, es⟩ s t fuel)) := by
  constructor
  · rintro (rfl | ⟨⟨nf, ef⟩, rfl, hbad | hbad⟩)
    · rfl
    · simp only at hbad
      subst hbad
      cases ef <;> rfl
    · simp only at hbad
      subst hbad
      cases nf <;> rfl
  · rintro ⟨nf, ef⟩ ns es rfl h1 h2
    simp only at h1 h2
    subst h1; subst h2
    rfl

/-- Witness for C10: the absent-graph input produces exactly the thrown
error. -/
theorem aStarChecked_throw_iff_invalid_witness :
    aStarChecked none "A" "B" 1 = .error "Invalid graph structure" :=
  (aStarChecked_throw_iff_invalid none "A" "B" 1).1 (Or.inl rfl)

/-! ## Same-node path (C8) -/

/-- Claim C8: for every graph containing a node `"A"`, `aStar g "A" "A"`
returns (with any positive fuel) the single-element path holding that node's
coordinates, and the total distance of that path is zero. -/
theorem aStar_same_start_goal (g : Graph) (d : NodeData) (fuel : ℕ)
    (h : g.nodes "A" = some d) :
    aStar g "A" "A" (fuel + 1) = some (some [⟨d.x, d.y⟩]) ∧
      pointsCost [⟨d.x, d.y⟩] = 0 := by
  refine ⟨?_, rfl⟩
  simp only [aStar, h, aStarLoop, pickMinF, ANode.id, reconstructPath, if_pos]

/-- Witness for C8 at a concrete one-node graph. -/
theorem aStar_same_start_goal_witness :
    aStar ⟨fun i => if i = "A" then some ⟨0, 0⟩ else none, []⟩ "A" "A" 1 =
        some (some [⟨0, 0⟩]) ∧
      pointsCost [⟨(0 : ℝ), (0 : ℝ)⟩] = 0 :=
  aStar_same_start_goal ⟨fun i => if i = "A" then some ⟨0, 0⟩ else none, []⟩ ⟨0, 0⟩ 0
    (by simp)

/-! ## GPS fusion weights (C2) -/

/-- Counterexample for C2: with the anchor at latitude 0 and a fix that
projects to the map point `(0, 1)`, an accuracy of exactly 5 m blends with
weight 0.5 (the claim says weight 0.8 for accuracy at most 5 m), and an
accuracy of exactly 15 m leaves the estimate unchanged (the claim says the fix
is only ignored above 15 m). -/
theorem fuseGPSData_boundary_counterexample :
    ((fuseGPSData ⟨0, 0, 0, 0⟩ (0, 0) (1 / 111320) 0 5).2 = 1 / 2 ∧
      (1 : ℝ) / 2 ≠ 0 * (1 - 0.8) + 1 * 0.8) ∧
    ((fuseGPSData ⟨0, 0, 0, 0⟩ (0, 0) (1 / 111320) 0 15).2 = 0 ∧
      (0 : ℝ) ≠ 0 * (1 - 0.5) + 1 * 0.5) := by
  refine ⟨⟨?_, by norm_num⟩, ⟨?_, by norm_num⟩⟩
  · norm_num [fuseGPSData]
  · norm_num [fuseGPSData]

/-- Claim C2 (amended): after calibration, an absolute fix is blended as the
convex combination `estimate*(1-w) + fix*w` per coordinate axis, with
`w = 0.8` when accuracy is strictly below 5 m, `w = 0.5` when accuracy is at
least 5 m and strictly below 15 m, and the fix ignored (estimate unchanged)
when accuracy is at least 15 m. -/
theorem fuseGPSData_accuracy_weights (anchor : StartingGPS) (pos : ℝ × ℝ)
    (fixLat fixLon accuracy : ℝ) :
    let fixX := anchor.x + (fixLon - anchor.longitude) *
      (111320 * Real.cos (anchor.latitude * Real.pi / 180))
    let fixY := anchor.y + (fixLat - anchor.latitude) * 111320
    (accuracy < 5 →
      fuseGPSData anchor pos fixLat fixLon accuracy =
        (pos.1 * (1 - 0.8) + fixX * 0.8, pos.2 * (1 - 0.8) + fixY * 0.8)) ∧
    (5 ≤ accuracy → accuracy < 15 →
      fuseGPSData anchor pos fixLat fixLon accuracy =
        (pos.1 * (1 - 0.5) + fixX * 0.5, pos.2 * (1 - 0.5) + fixY * 0.5)) ∧
    (15 ≤ accuracy → fuseGPSData anchor pos fixLat fixLon accuracy = pos) := by
  refine ⟨?_, ?_, ?_⟩
  · intro h
    have h15 : accuracy < 15 := by linarith
    simp only [fuseGPSData]
    rw [if_pos h15, if_pos h]
  · intro h5 h15
    have h : ¬ accuracy < 5 := by linarith
    simp only [fuseGPSData]
    rw [if_pos h15, if_neg h]
  · intro h15
    have h : ¬ accuracy < 15 := by linarith
    simp only [fuseGPSData]
    rw [if_neg h]

/-- Witness for C2 (amended) at accuracy 3 m. -/
theorem fuseGPSData_accuracy_weights_witness :
    fuseGPSData ⟨0, 0, 0, 0⟩ (0, 0) (1 / 111320) 0 3 =
      ((0 : ℝ) * (1 - 0.8) +
          (0 + (0 - 0) * (111320 * Real.cos (0 * Real.pi / 180))) * 0.8,
        (0 : ℝ) * (1 - 0.8) + (0 + (1 / 111320 - 0) * 111320) * 0.8) := by
  have h := fuseGPSData_accuracy_weights ⟨0, 0, 0, 0⟩ (0, 0) (1 / 111320) 0 3
  simp only at h
  exact h.1 (by norm_num)

/-! ## Heading smoothing (C5) -/

/-- Claim C5: the heading smoother blends with the signed shortest angular
difference — the wrapped difference lies in `[-180, 180]` and is congruent to
the raw difference modulo 360 — and from smoothed heading 350 ingesting 10 the
new heading is 354 (the 20-degree short arc toward 360/0 scaled by the 0.2
smoothing factor), not a move the 340-degree long way. -/
theorem heading_smoothing_shortest_arc :
    (∀ heading alpha : ℝ, 0 ≤ heading → heading < 360 → 0 ≤ alpha → alpha < 360 →
      ∃ d : ℝ, -180 ≤ d ∧ d ≤ 180 ∧
        (d = alpha - heading ∨ d = alpha - heading - 360 ∨ d = alpha - heading + 360) ∧
        updateHeadingFromRotation heading alpha = jsMod ((heading + d * 0.2) + 360) 360) ∧
    updateHeadingFromRotation 350 10 = 354 := by
  constructor
  · intro heading alpha h0 h1 h2 h3
    by_cases hgt : alpha - heading > 180
    · refine ⟨alpha - heading - 360, by linarith, by linarith, Or.inr (Or.inl rfl), ?_⟩
      have hnd : ¬ (alpha - heading - 360 < -180) := by linarith
      simp only [updateHeadingFromRotation]
      rw [if_pos hgt, if_neg hnd]
    · by_cases hlt : alpha - heading < -180
      · refine ⟨alpha - heading + 360, by linarith, by linarith, Or.inr (Or.inr rfl), ?_⟩
        simp only [updateHeadingFromRotation]
        rw [if_neg hgt, if_pos hlt]
      · refine ⟨alpha - heading, by linarith, by linarith, Or.inl rfl, ?_⟩
        simp only [updateHeadingFromRotation]
        rw [if_neg hgt, if_neg hlt]
  · have hfl : ⌊(714 : ℝ) / 360⌋ = 1 := by
      rw [Int.floor_eq_iff]
      norm_num
    have hd1 : ¬ ((10 : ℝ) - 350 > 180) := by norm_num
    have hd2 : ((10 : ℝ) - 350 < -180) := by norm_num
    simp only [updateHeadingFromRotation]
    rw [if_neg hd1, if_pos hd2]
    have harg : ((350 : ℝ) + (10 - 350 + 360) * 0.2) + 360 = 714 := by norm_num
    rw [harg]
    have htr : ¬ ((714 : ℝ) / 360 < 0) := by norm_num
    rw [jsMod, jsTrunc, if_neg htr, hfl]
    norm_num

/-- Witness for C5 applied at headings 350 and 10. -/
theorem heading_smoothing_shortest_arc_witness :
    ∃ d : ℝ, -180 ≤ d ∧ d ≤ 180 ∧
      (d = 10 - 350 ∨ d = 10 - 350 - 360 ∨ d = 10 - 350 + 360) ∧
      updateHeadingFromRotation 350 10 = jsMod ((350 + d * 0.2) + 360) 360 :=
  heading_smoothing_shortest_arc.1 350 10 (by norm_num) (by norm_num) (by norm_num)
    (by norm_num)

/-! ## Range lemmas for the geodesic helpers -/

theorem jsAtan2_range (yv xv : ℝ) :
    -Real.pi < jsAtan2 yv xv ∧ jsAtan2 yv xv ≤ Real.pi := by
  have hpi : 0 < Real.pi := Real.pi_pos
  have harc : ∀ z : ℝ, -(Real.pi / 2) < Real.arctan z ∧ Real.arctan z < Real.pi / 2 :=
    fun z => ⟨Real.neg_pi_div_two_lt_arctan z, Real.arctan_lt_pi_div_two z⟩
  unfold jsAtan2
  split_ifs with h1 h2 h3 h4 h5
  · rcases harc (yv / xv) with ⟨ha, hb⟩
    constructor <;> linarith
  · have hq : yv / xv ≤ 0 := div_nonpos_of_nonneg_of_nonpos h3 (le_of_lt h2)
    have hle : Real.arctan (yv / xv) ≤ 0 := by
      have := Real.arctan_strictMono.monotone hq
      rwa [Real.arctan_zero] at this
    rcases harc (yv / xv) with ⟨ha, hb⟩
    constructor <;> linarith
  · have hy : yv < 0 := lt_of_not_le h3
    have hq : 0 < yv / xv := div_pos_of_neg_of_neg hy h2
    have hgt : 0 < Real.arctan (yv / xv) := by
      have := Real.arctan_strictMono hq
      rwa [Real.arctan_zero] at this
    rcases harc (yv / xv) with ⟨ha, hb⟩
    constructor <;> linarith
  · constructor <;> linarith
  · constructor <;> linarith
  · constructor <;> linarith

theorem jsMod_nonneg_lt (a : ℝ) (h : 0 ≤ a) : 0 ≤ jsMod a 360 ∧ jsMod a 360 < 360 := by
  have h1 : ¬ a / 360 < 0 := not_lt.mpr (by positivity)
  rw [jsMod, jsTrunc, if_neg h1]
  have h2 := Int.fract_nonneg (a / 360)
  have h3 := Int.fract_lt_one (a / 360)
  rw [Int.fract] at h2 h3
  have key : a / 360 * 360 = a := div_mul_cancel₀ a (by norm_num)
  constructor <;> nlinarith

theorem jsMod_bearing_mem (theta : ℝ) (h1 : -Real.pi < theta) (_h2 : theta ≤ Real.pi) :
    0 ≤ jsMod (theta * 180 / Real.pi + 360) 360 ∧
      jsMod (theta * 180 / Real.pi + 360) 360 < 360 := by
  have hpi : 0 < Real.pi := Real.pi_pos
  refine jsMod_nonneg_lt _ ?_
  have hlow : -180 < theta * 180 / Real.pi := by
    rw [lt_div_iff₀ hpi]
    nlinarith
  linarith

theorem calculateGPSBearing_mem (lat1 lon1 lat2 lon2 : ℝ) :
    0 ≤ calculateGPSBearing lat1 lon1 lat2 lon2 ∧
      calculateGPSBearing lat1 lon1 lat2 lon2 < 360 := by
  unfold calculateGPSBearing
  exact jsMod_bearing_mem _ (jsAtan2_range _ _).1 (jsAtan2_range _ _).2

theorem wrapDown_two (r : ℝ) (h : r < 540) :
    wrapDown 2 r = if r > 180 then r - 360 else r := by
  by_cases hgt : r > 180
  · have hnd : ¬ (r - 360 > 180) := by linarith
    rw [show wrapDown 2 r = if r > 180 then wrapDown 1 (r - 360) else r from rfl, if_pos hgt,
      show wrapDown 1 (r - 360) = if r - 360 > 180 then wrapDown 0 (r - 360 - 360) else r - 360
        from rfl, if_neg hnd, if_pos hgt]
  · rw [show wrapDown 2 r = if r > 180 then wrapDown 1 (r - 360) else r from rfl, if_neg hgt,
      if_neg hgt]

theorem normalizeRel_spec (r : ℝ) (h1 : -360 < r) (h2 : r < 360) :
    normalizeRel r = if r > 180 then r - 360 else if r < -180 then r + 360 else r := by
  rw [normalizeRel, wrapDown_two r (by linarith)]
  by_cases hgt : r > 180
  · rw [if_pos hgt, if_pos hgt]
    have hnu : ¬ (r - 360 < -180) := by linarith
    rw [show wrapUp 2 (r - 360) = if r - 360 < -180 then wrapUp 1 (r - 360 + 360) else r - 360
      from rfl, if_neg hnu]
  · rw [if_neg hgt, if_neg hgt]
    by_cases hlt : r < -180
    · have hnu : ¬ (r + 360 < -180) := by linarith
      rw [show wrapUp 2 r = if r < -180 then wrapUp 1 (r + 360) else r from rfl, if_pos hlt,
        show wrapUp 1 (r + 360) = if r + 360 < -180 then wrapUp 0 (r + 360 + 360) else r + 360
          from rfl, if_neg hnu, if_pos hlt]
    · rw [show wrapUp 2 r = if r < -180 then wrapUp 1 (r + 360) else r from rfl, if_neg hlt,
        if_neg hlt]

theorem normalizeRel_mem (r : ℝ) (h1 : -360 < r) (h2 : r < 360) :
    -180 ≤ normalizeRel r ∧ normalizeRel r ≤ 180 := by
  rw [normalizeRel_spec r h1 h2]
  split_ifs with ha hb
  · constructor <;> linarith
  · constructor <;> linarith
  · push_neg at ha hb
    constructor <;> linarith

/-! ## The navigation tracker (C3, C4, C7) -/

/-- The distance the tracker computes on an update: from the current location
to the waypoint at the active index. -/
def distToTarget (path : List GeoWaypoint) (idx : ℕ) (st : NavState) : ℝ :=
  calculateGPSDistance st.currentLocation.latitude st.currentLocation.longitude
    (path.getD idx ⟨0, 0⟩).latitude (path.getD idx ⟨0, 0⟩).longitude

theorem jsAccuracyOr5_threshold (a : ℝ) :
    max 10 (jsAccuracyOr5 (some a) + 5) = max 10 (a + 5) := by
  by_cases h : a = 0
  · subst h
    rw [show jsAccuracyOr5 (some 0) = if (0 : ℝ) = 0 then 5 else 0 from rfl, if_pos rfl,
      show (5 : ℝ) + 5 = 10 by norm_num, max_self,
      max_eq_left (by norm_num : (0 : ℝ) + 5 ≤ 10)]
  · rw [show jsAccuracyOr5 (some a) = if a = 0 then 5 else a from rfl, if_neg h]

theorem updateNavigationLogic_index_ge (path : List GeoWaypoint) (idx : ℕ) (st : NavState) :
    idx ≤ (updateNavigationLogic path idx st).1 := by
  have hm : ∀ n (idx : ℕ) (st : NavState), path.length - idx = n →
      idx ≤ (updateNavigationLogic path idx st).1 := by
    intro n
    induction n using Nat.strong_induction_on with
    | _ n ih =>
      intro idx st hn
      rw [updateNavigationLogic]
      split_ifs with h1 h2 h3
      · exact le_refl idx
      · exact le_refl idx
      · simp only []
        split_ifs with h4 h5 <;> exact le_refl idx
      · simp only []
        split_ifs with h4
        · refine le_trans (Nat.le_succ idx) (ih (path.length - (idx + 1)) (by omega)
            (idx + 1) _ rfl)
        · exact le_refl idx
  exact hm (path.length - idx) idx st rfl

/-- Claim C3: while the final waypoint is active and the tracker has not yet
arrived, one update sets the arrived flag exactly when the distance is below
the fixed 5-meter threshold and below the secondary 8-meter check; in
particular a reading at 7 m does not set it and a reading at 4 m does, and the
step index never changes on the final waypoint. -/
theorem final_waypoint_arrival_thresholds (path : List GeoWaypoint) (idx : ℕ) (st : NavState)
    (hpath : path ≠ []) (hfin : idx = path.length - 1) (harr : st.isArrived = false) :
    ((updateNavigationLogic path idx st).2.isArrived = true ↔
        distToTarget path idx st < 5 ∧ distToTarget path idx st < 8) ∧
      (distToTarget path idx st = 7 → (updateNavigationLogic path idx st).2.isArrived = false) ∧
      (distToTarget path idx st = 4 → (updateNavigationLogic path idx st).2.isArrived = true) ∧
      (updateNavigationLogic path idx st).1 = idx := by
  have hlen0 : 0 < path.length := List.length_pos.mpr hpath
  have hidx : idx < path.length := by omega
  simp only [distToTarget]
  rw [updateNavigationLogic]
  simp only []
  split_ifs with h1 h2 h3 h4
  · exact absurd h1 hpath
  · omega
  · -- distance < 5 and distance < 8: arrival
    refine ⟨iff_of_true rfl ⟨h3, h4⟩, ?_, fun _ => rfl, rfl⟩
    intro hd
    rw [hd] at h3
    norm_num at h3
  · -- distance < 5 but not < 8: numerically impossible
    exact absurd (lt_trans h3 (by norm_num)) h4
  · -- distance not below 5: no arrival
    refine ⟨iff_of_false ?_ (fun hc => h3 hc.1), fun _ => harr, ?_, rfl⟩
    · simp only [harr, Bool.false_eq_true]
      exact not_false
    · intro hd
      rw [hd] at h3
      norm_num at h3

/-- Claim C4: while an intermediate (non-final) waypoint is active, one update
advances the step index exactly when the distance to the active waypoint is
below `max(10, accuracy + 5)` meters; with accuracy 20 that bound is 25 m and
with accuracy 2 it is 10 m. -/
theorem intermediate_waypoint_advance_iff (path : List GeoWaypoint) (idx : ℕ) (st : NavState)
    (a : ℝ) (hidx : idx < path.length - 1) (hacc : st.currentLocation.accuracy = some a) :
    (idx < (updateNavigationLogic path idx st).1 ↔
        distToTarget path idx st < max 10 (a + 5)) ∧
      (a = 20 → (idx < (updateNavigationLogic path idx st).1 ↔
        distToTarget path idx st < 25)) ∧
      (a = 2 → (idx < (updateNavigationLogic path idx st).1 ↔
        distToTarget path idx st < 10)) := by
  have hmain : idx < (updateNavigationLogic path idx st).1 ↔
      distToTarget path idx st < max 10 (a + 5) := by
    have hpath : path ≠ [] := by
      intro h
      rw [h] at hidx
      simp at hidx
    simp only [distToTarget]
    rw [updateNavigationLogic]
    simp only []
    rw [hacc, jsAccuracyOr5_threshold]
    split_ifs with h1 h2 h3 h4 h5 h6
    · exact absurd h1 hpath
    · omega
    · omega
    · omega
    · omega
    · exact iff_of_true (lt_of_lt_of_le (Nat.lt_succ_self idx)
        (updateNavigationLogic_index_ge path (idx + 1) _)) h6
    · exact iff_of_false (lt_irrefl idx) h6
  refine ⟨hmain, ?_, ?_⟩
  · intro ha
    subst ha
    rwa [max_eq_right (by norm_num : (10 : ℝ) ≤ 20 + 5),
      show (20 : ℝ) + 5 = 25 by norm_num] at hmain
  · intro ha
    subst ha
    rwa [max_eq_left (by norm_num : (2 : ℝ) + 5 ≤ 10)] at hmain

/-- Counterexample for C7 is given below (`relativeBearing_reaches_neg180`);
this is the amended range statement: the reported relative bearing equals the
normalized difference of the bearing to the active waypoint and the heading,
and lies in the closed interval `[-180, 180]` (the boundary `-180` is
attainable). -/
theorem relativeBearing_equals_normalized_difference (path : List GeoWaypoint) (idx : ℕ)
    (st : NavState) (hidx : idx < path.length) (hh0 : 0 ≤ st.heading)
    (hh1 : st.heading < 360) :
    (updateNavigationLogic path idx st).2.relativeBearing =
        normalizeRel ((updateNavigationLogic path idx st).2.bearingToNext - st.heading) ∧
      -180 ≤ (updateNavigationLogic path idx st).2.relativeBearing ∧
      (updateNavigationLogic path idx st).2.relativeBearing ≤ 180 := by
  have hm : ∀ n (idx : ℕ) (st : NavState), path.length - idx = n →
      idx < path.length → 0 ≤ st.heading → st.heading < 360 →
      (updateNavigationLogic path idx st).2.relativeBearing =
          normalizeRel ((updateNavigationLogic path idx st).2.bearingToNext - st.heading) ∧
        -180 ≤ (updateNavigationLogic path idx st).2.relativeBearing ∧
        (updateNavigationLogic path idx st).2.relativeBearing ≤ 180 := by
    intro n
    induction n using Nat.strong_induction_on with
    | _ n ih =>
      intro idx st hn hidx hh0 hh1
      have hpath : path ≠ [] := by
        intro h
        rw [h] at hidx
        simp at hidx
      have hb := calculateGPSBearing_mem st.currentLocation.latitude
        st.currentLocation.longitude (path.getD idx ⟨0, 0⟩).latitude
        (path.getD idx ⟨0, 0⟩).longitude
      have hnr := normalizeRel_mem (calculateGPSBearing st.currentLocation.latitude
        st.currentLocation.longitude (path.getD idx ⟨0, 0⟩).latitude
        (path.getD idx ⟨0, 0⟩).longitude - st.heading)
        (by linarith [hb.1]) (by linarith [hb.2])
      rw [updateNavigationLogic]
      simp only []
      split_ifs with h1 h2 h3 h4 h5 h6
      · exact absurd h1 hpath
      · omega
      · exact ⟨rfl, hnr.1, hnr.2⟩
      · exact ⟨rfl, hnr.1, hnr.2⟩
      · exact ⟨rfl, hnr.1, hnr.2⟩
      · exact ih (path.length - (idx + 1)) (by omega) (idx + 1) _ rfl (by omega) hh0 hh1
      · exact ⟨rfl, hnr.1, hnr.2⟩
  exact hm (path.length - idx) idx st rfl hidx hh0 hh1

/-! ## Exact evaluations of the geodesic helpers at due-north inputs -/

theorem jsAtan2_sin_cos (x : ℝ) (h0 : 0 ≤ x) (h1 : x < Real.pi / 2) :
    jsAtan2 (Real.sin x) (Real.cos x) = x := by
  have hpi : 0 < Real.pi := Real.pi_pos
  have hc : 0 < Real.cos x := Real.cos_pos_of_mem_Ioo ⟨by linarith, h1⟩
  rw [jsAtan2, if_pos hc, ← Real.tan_eq_sin_div_cos, Real.arctan_tan (by linarith) h1]

theorem calculateGPSDistance_same_lon (lat1 lat2 lon : ℝ) (h0 : lat1 ≤ lat2)
    (h1 : lat2 - lat1 < 180) :
    calculateGPSDistance lat1 lon lat2 lon = 6371e3 * ((lat2 - lat1) * Real.pi / 180) := by
  have hpi : 0 < Real.pi := Real.pi_pos
  have hd : 0 ≤ lat2 - lat1 := sub_nonneg.mpr h0
  have hx0 : 0 ≤ (lat2 - lat1) * Real.pi / 180 / 2 := by positivity
  have hdpi : (lat2 - lat1) * Real.pi < 180 * Real.pi := by nlinarith
  have hx1 : (lat2 - lat1) * Real.pi / 180 / 2 < Real.pi / 2 := by linarith
  unfold calculateGPSDistance
  simp only []
  rw [show (lon - lon) * Real.pi / 180 / 2 = 0 by ring, Real.sin_zero, mul_zero, mul_zero,
    add_zero]
  rw [Real.sqrt_mul_self (Real.sin_nonneg_of_nonneg_of_le_pi hx0 (by linarith))]
  have hcos : 1 - Real.sin ((lat2 - lat1) * Real.pi / 180 / 2) *
      Real.sin ((lat2 - lat1) * Real.pi / 180 / 2) =
      Real.cos ((lat2 - lat1) * Real.pi / 180 / 2) *
        Real.cos ((lat2 - lat1) * Real.pi / 180 / 2) := by
    have h := Real.sin_sq_add_cos_sq ((lat2 - lat1) * Real.pi / 180 / 2)
    rw [pow_two, pow_two] at h
    linarith
  rw [hcos, Real.sqrt_mul_self (Real.cos_nonneg_of_mem_Icc
    (Set.mem_Icc.mpr ⟨by linarith, by linarith⟩))]
  rw [jsAtan2_sin_cos _ hx0 hx1]
  ring

theorem jsMod_360_360 : jsMod (360 : ℝ) 360 = 0 := by
  rw [jsMod, jsTrunc, show (360 : ℝ) / 360 = 1 by norm_num,
    if_neg (by norm_num : ¬ (1 : ℝ) < 0), Int.floor_one]
  norm_num

theorem calculateGPSBearing_north (lat1 lat2 lon : ℝ) (h0 : lat1 < lat2)
    (h1 : lat2 - lat1 < 180) :
    calculateGPSBearing lat1 lon lat2 lon = 0 := by
  have hpi : 0 < Real.pi := Real.pi_pos
  have he : lat2 * Real.pi / 180 - lat1 * Real.pi / 180 = (lat2 - lat1) * Real.pi / 180 := by
    ring
  unfold calculateGPSBearing
  simp only []
  rw [show (lon - lon) * Real.pi / 180 = 0 by ring, Real.sin_zero, Real.cos_zero, zero_mul,
    mul_one]
  have hxv : Real.cos (lat1 * Real.pi / 180) * Real.sin (lat2 * Real.pi / 180) -
      Real.sin (lat1 * Real.pi / 180) * Real.cos (lat2 * Real.pi / 180) =
      Real.sin (lat2 * Real.pi / 180 - lat1 * Real.pi / 180) := by
    rw [Real.sin_sub]
    ring
  rw [hxv]
  have hpos : 0 < Real.sin (lat2 * Real.pi / 180 - lat1 * Real.pi / 180) := by
    apply Real.sin_pos_of_pos_of_lt_pi
    · rw [he]
      have : 0 < (lat2 - lat1) * Real.pi := by nlinarith
      linarith
    · rw [he]
      have : (lat2 - lat1) * Real.pi < 180 * Real.pi := by nlinarith
      linarith
  rw [jsAtan2, if_pos hpos, zero_div, Real.arctan_zero,
    show (0 : ℝ) * 180 / Real.pi + 360 = 360 by ring, jsMod_360_360]

theorem calculateGPSBearing_self_zero : calculateGPSBearing 0 0 0 0 = 0 := by
  unfold calculateGPSBearing
  simp only []
  rw [show ((0 : ℝ) - 0) * Real.pi / 180 = 0 by ring, Real.sin_zero, Real.cos_zero, zero_mul,
    mul_one, show (0 : ℝ) * Real.pi / 180 = 0 by ring, Real.sin_zero, Real.cos_zero]
  rw [show (1 : ℝ) * 0 - 0 * 1 = 0 by ring]
  rw [jsAtan2, if_neg (lt_irrefl (0 : ℝ)), if_neg (lt_irrefl (0 : ℝ)),
    if_neg (lt_irrefl (0 : ℝ)), if_neg (lt_irrefl (0 : ℝ)),
    show (0 : ℝ) * 180 / Real.pi + 360 = 360 by ring, jsMod_360_360]

/-- Witness for C3: the final waypoint lies exactly 7 meters due north of the
current position, so the update does not set the arrived flag. -/
theorem final_waypoint_arrival_thresholds_witness :
    (updateNavigationLogic [⟨0, 0⟩, ⟨7 * 180 / (6371e3 * Real.pi), 0⟩] 1
        ⟨⟨0, 0, some 3⟩, 0, none, 0, 0, 0, 0, 0, false⟩).2.isArrived = false := by
  have hpi : 0 < Real.pi := Real.pi_pos
  have hgt3 : (3 : ℝ) < Real.pi := Real.pi_gt_three
  have hlat0 : 0 ≤ 7 * 180 / (6371e3 * Real.pi) := by positivity
  have hlat1 : 7 * 180 / (6371e3 * Real.pi) - 0 < 180 := by
    rw [sub_zero, div_lt_iff₀ (by positivity : (0 : ℝ) < 6371e3 * Real.pi)]
    nlinarith
  have hd : distToTarget [⟨0, 0⟩, ⟨7 * 180 / (6371e3 * Real.pi), 0⟩] 1
      ⟨⟨0, 0, some 3⟩, 0, none, 0, 0, 0, 0, 0, false⟩ = 7 := by
    unfold distToTarget
    simp only []
    rw [show ([⟨0, 0⟩, ⟨7 * 180 / (6371e3 * Real.pi), 0⟩] : List GeoWaypoint).getD 1 ⟨0, 0⟩ =
      ⟨7 * 180 / (6371e3 * Real.pi), 0⟩ from rfl]
    rw [show (⟨7 * 180 / (6371e3 * Real.pi), 0⟩ : GeoWaypoint).latitude =
      7 * 180 / (6371e3 * Real.pi) from rfl]
    rw [show (⟨7 * 180 / (6371e3 * Real.pi), 0⟩ : GeoWaypoint).longitude = 0 from rfl]
    rw [calculateGPSDistance_same_lon 0 (7 * 180 / (6371e3 * Real.pi)) 0 hlat0 hlat1,
      sub_zero]
    field_simp
    ring
  exact (final_waypoint_arrival_thresholds [⟨0, 0⟩, ⟨7 * 180 / (6371e3 * Real.pi), 0⟩] 1
    ⟨⟨0, 0, some 3⟩, 0, none, 0, 0, 0, 0, 0, false⟩ (by simp) rfl rfl).2.1 hd

/-- Witness for C4: an intermediate waypoint at distance 0 with accuracy 2
triggers advancement (0 is below the 10-meter bound). -/
theorem intermediate_waypoint_advance_iff_witness :
    1 < (updateNavigationLogic [⟨0, 0⟩, ⟨0, 0⟩, ⟨0, 0⟩] 1
        ⟨⟨0, 0, some 2⟩, 0, none, 0, 0, 0, 0, 0, false⟩).1 := by
  have hd : distToTarget [⟨0, 0⟩, ⟨0, 0⟩, ⟨0, 0⟩] 1
      ⟨⟨0, 0, some 2⟩, 0, none, 0, 0, 0, 0, 0, false⟩ = 0 := by
    unfold distToTarget
    simp only []
    rw [show ([⟨0, 0⟩, ⟨0, 0⟩, ⟨0, 0⟩] : List GeoWaypoint).getD 1 ⟨0, 0⟩ = ⟨0, 0⟩ from rfl]
    have h := calculateGPSDistance_same_lon 0 0 0 le_rfl (by norm_num)
    simpa using h
  refine ((intermediate_waypoint_advance_iff [⟨0, 0⟩, ⟨0, 0⟩, ⟨0, 0⟩] 1
    ⟨⟨0, 0, some 2⟩, 0, none, 0, 0, 0, 0, 0, false⟩ 2 (by norm_num) rfl).2.2 rfl).mpr ?_
  rw [hd]
  norm_num

/-- Counterexample for C7: with heading 180 and the active (final) waypoint at
the current position, the bearing is 0 and the reported relative bearing is
exactly -180, which is not strictly greater than -180. -/
theorem relativeBearing_reaches_neg180 :
    (updateNavigationLogic [⟨0, 0⟩, ⟨0, 0⟩] 1
        ⟨⟨0, 0, none⟩, 180, none, 0, 0, 0, 0, 0, false⟩).2.relativeBearing = -180 ∧
      ¬ (-180 < (updateNavigationLogic [⟨0, 0⟩, ⟨0, 0⟩] 1
        ⟨⟨0, 0, none⟩, 180, none, 0, 0, 0, 0, 0, false⟩).2.relativeBearing) := by
  have hd0 : calculateGPSDistance 0 0 0 0 = 0 := by
    have h := calculateGPSDistance_same_lon 0 0 0 le_rfl (by norm_num)
    simpa using h
  have hrel : normalizeRel (0 - 180) = -180 := by
    rw [show (0 : ℝ) - 180 = -180 by norm_num,
      normalizeRel_spec (-180) (by norm_num) (by norm_num), if_neg (by norm_num),
      if_neg (by norm_num)]
  have hmain : (updateNavigationLogic [⟨0, 0⟩, ⟨0, 0⟩] 1
      ⟨⟨0, 0, none⟩, 180, none, 0, 0, 0, 0, 0, false⟩).2.relativeBearing = -180 := by
    rw [updateNavigationLogic]
    rw [if_neg (by simp : ¬ ([⟨0, 0⟩, ⟨0, 0⟩] : List GeoWaypoint) = [])]
    rw [dif_neg (by norm_num : ¬ ([⟨0, 0⟩, ⟨0, 0⟩] : List GeoWaypoint).length ≤ 1)]
    simp only []
    rw [show ([⟨0, 0⟩, ⟨0, 0⟩] : List GeoWaypoint).getD 1 ⟨0, 0⟩ = ⟨0, 0⟩ from rfl]
    simp only [hd0, calculateGPSBearing_self_zero]
    simp only [show ([⟨0, 0⟩, ⟨0, 0⟩] : List GeoWaypoint).length = 2 from rfl]
    rw [if_pos (trivial : True), dif_pos (trivial : True),
      if_pos (show (0 : ℝ) < 5 by norm_num), if_pos (show (0 : ℝ) < 8 by norm_num)]
    exact hrel
  exact ⟨hmain, by rw [hmain]; exact lt_irrefl _⟩

/-- Witness for C7 (amended) at a concrete update with heading 180. -/
theorem relativeBearing_equals_normalized_difference_witness :
    (updateNavigationLogic [⟨0, 0⟩, ⟨1, 0⟩] 1
        ⟨⟨0, 0, none⟩, 180, none, 0, 0, 0, 0, 0, false⟩).2.relativeBearing =
        normalizeRel ((updateNavigationLogic [⟨0, 0⟩, ⟨1, 0⟩] 1
          ⟨⟨0, 0, none⟩, 180, none, 0, 0, 0, 0, 0, false⟩).2.bearingToNext - 180) ∧
      -180 ≤ (updateNavigationLogic [⟨0, 0⟩, ⟨1, 0⟩] 1
        ⟨⟨0, 0, none⟩, 180, none, 0, 0, 0, 0, 0, false⟩).2.relativeBearing ∧
      (updateNavigationLogic [⟨0, 0⟩, ⟨1, 0⟩] 1
        ⟨⟨0, 0, none⟩, 180, none, 0, 0, 0, 0, 0, false⟩).2.relativeBearing ≤ 180 :=
  relativeBearing_equals_normalized_difference [⟨0, 0⟩, ⟨1, 0⟩] 1
    ⟨⟨0, 0, none⟩, 180, none, 0, 0, 0, 0, 0, false⟩ (by simp) (by norm_num) (by norm_num)

/-! ## Euclidean distance facts -/

theorem euclDist_nonneg (x1 y1 x2 y2 : ℝ) : 0 ≤ euclDist x1 y1 x2 y2 :=
  Real.sqrt_nonneg _

theorem euclDist_eq_abs (x1 y1 x2 y2 : ℝ) :
    euclDist x1 y1 x2 y2 = Complex.abs ⟨x2 - x1, y2 - y1⟩ := by
  rw [Complex.abs_apply, Complex.normSq_apply, euclDist]
  congr 1
  ring

theorem euclDist_triangle (x1 y1 x2 y2 x3 y3 : ℝ) :
    euclDist x1 y1 x3 y3 ≤ euclDist x1 y1 x2 y2 + euclDist x2 y2 x3 y3 := by
  rw [euclDist_eq_abs, euclDist_eq_abs, euclDist_eq_abs]
  have he : (⟨x3 - x1, y3 - y1⟩ : ℂ) = ⟨x2 - x1, y2 - y1⟩ + ⟨x3 - x2, y3 - y2⟩ := by
    apply Complex.ext <;> simp
  rw [he]
  exact Complex.abs.add_le _ _

/-! ## Path-cost facts -/

theorem pointsCost_nonneg : ∀ l : List PathPoint, 0 ≤ pointsCost l
  | [] => le_refl 0
  | [_] => le_refl 0
  | a :: b :: rest => by
    rw [pointsCost]
    have h1 := euclDist_nonneg a.x a.y b.x b.y
    have h2 := pointsCost_nonneg (b :: rest)
    linarith

theorem pointsCost_append_cons :
    ∀ (l : List PathPoint) (p : PathPoint) (m : List PathPoint),
      pointsCost (l ++ p :: m) = pointsCost (l ++ [p]) + pointsCost (p :: m)
  | [], p, m => by
    cases m with
    | nil => simp [pointsCost]
    | cons b t => simp [pointsCost]
  | [a], p, m => by
    cases m with
    | nil => simp [pointsCost]
    | cons b t =>
      simp only [List.cons_append, List.nil_append, pointsCost]
      ring
  | a :: b :: t, p, m => by
    have ih := pointsCost_append_cons (b :: t) p m
    simp only [List.cons_append] at ih ⊢
    rw [pointsCost, pointsCost]
    linarith

theorem pathCost_nonneg (g : Graph) (ids : List String) : 0 ≤ pathCost g ids :=
  pointsCost_nonneg _

theorem coordsOf_append (g : Graph) (l1 l2 : List String) :
    coordsOf g (l1 ++ l2) = coordsOf g l1 ++ coordsOf g l2 := by
  unfold coordsOf
  exact List.map_append _ l1 l2

theorem coordsOf_single (g : Graph) (i : String) : coordsOf g [i] = [coordPt g i] := rfl

theorem isPathTo_data {g : Graph} {s t : String} {P : List String}
    (hp : IsPathTo g s t P) : ∃ d, g.nodes t = some d := by
  induction hp with
  | single d hd => exact ⟨d, hd⟩
  | snoc d _ _ hd _ => exact ⟨d, hd⟩

theorem isPathTo_snoc_cost {g : Graph} {s t : String} {P : List String}
    (hp : IsPathTo g s t P) :
    ∀ q : PathPoint, pointsCost (coordsOf g P ++ [q]) =
      pathCost g P + euclDist (coordPt g t).x (coordPt g t).y q.x q.y := by
  induction hp with
  | single d hd =>
    intro q
    rw [coordsOf_single]
    simp only [List.cons_append, List.nil_append, pointsCost, pathCost, coordsOf_single]
    ring
  | @snoc u t P d hP hAdj hd ih =>
    intro q
    rw [coordsOf_append, coordsOf_single, List.append_assoc,
      show ([coordPt g t] : List PathPoint) ++ [q] = coordPt g t :: [q] from rfl,
      pointsCost_append_cons, ih (coordPt g t)]
    rw [show pathCost g (P ++ [t]) = pointsCost (coordsOf g P ++ [coordPt g t]) by
      rw [pathCost, coordsOf_append, coordsOf_single]]
    rw [ih (coordPt g t)]
    simp only [pointsCost]
    ring

theorem isPathTo_cost_append {g : Graph} {s u : String} {P : List String}
    (hp : IsPathTo g s u P) (t : String) :
    pathCost g (P ++ [t]) = pathCost g P +
      euclDist (coordPt g u).x (coordPt g u).y (coordPt g t).x (coordPt g t).y := by
  rw [pathCost, coordsOf_append, coordsOf_single, isPathTo_snoc_cost hp (coordPt g t)]

/-! ## Chain facts -/

theorem ANode.getF_eq : ∀ c : ANode, c.getF = c.g + c.h
  | .root _ _ _ _ _ _ => rfl
  | .child _ _ _ _ _ _ _ => rfl

theorem reconstructPath_cons :
    ∀ (i : String) (x y gv hv fv : ℝ) (p : ANode),
      reconstructPath (.child i x y gv hv fv p) = reconstructPath p ++ [⟨x, y⟩] :=
  fun _ _ _ _ _ _ _ => rfl

theorem chainOK_id_data {g : Graph} {startId : String} {sd gd : NodeData} {c : ANode}
    (hsd : g.nodes startId = some sd) (hc : ChainOK g startId sd gd c) :
    g.nodes c.id = some ⟨c.x, c.y⟩ := by
  induction hc with
  | start => exact hsd
  | step hpar hadj hnd ih => exact hnd

theorem chainOK_h_cases {g : Graph} {startId : String} {sd gd : NodeData} {c : ANode}
    (hc : ChainOK g startId sd gd c) :
    c.h = euclDist c.x c.y gd.x gd.y ∨ (c.h = 0 ∧ c.g = 0 ∧ c.id = startId) := by
  cases hc with
  | start => exact Or.inr ⟨rfl, rfl, rfl⟩
  | step hpar hadj hnd => exact Or.inl rfl

theorem chainOK_g_nonneg {g : Graph} {startId : String} {sd gd : NodeData} {c : ANode}
    (hc : ChainOK g startId sd gd c) : 0 ≤ c.g := by
  induction hc with
  | start => exact le_refl 0
  | @step par nid nd hpar hadj hnd ih =>
    exact add_nonneg ih (euclDist_nonneg par.x par.y nd.x nd.y)

theorem chainOK_path {g : Graph} {startId : String} {sd gd : NodeData} {c : ANode}
    (hsd : g.nodes startId = some sd) (hc : ChainOK g startId sd gd c) :
    IsPathTo g startId c.id (chainIds c) := by
  induction hc with
  | start => exact IsPathTo.single sd hsd
  | step hpar hadj hnd ih => exact IsPathTo.snoc _ ih hadj hnd

theorem chainOK_coords {g : Graph} {startId : String} {sd gd : NodeData} {c : ANode}
    (hsd : g.nodes startId = some sd) (hc : ChainOK g startId sd gd c) :
    reconstructPath c = coordsOf g (chainIds c) := by
  induction hc with
  | start =>
    rw [show chainIds (.root startId sd.x sd.y 0 0 0) = [startId] from rfl, coordsOf_single]
    rw [show reconstructPath (.root startId sd.x sd.y 0 0 0) = [⟨sd.x, sd.y⟩] from rfl]
    rw [show coordPt g startId = ⟨sd.x, sd.y⟩ by rw [coordPt, hsd]]
  | @step par nid nd hpar hadj hnd ih =>
    rw [reconstructPath_cons, show chainIds (.child nid nd.x nd.y _ _ _ par) =
      chainIds par ++ [nid] from rfl, coordsOf_append, coordsOf_single, ih]
    rw [show coordPt g nid = ⟨nd.x, nd.y⟩ by rw [coordPt, hnd]]

theorem chainOK_cost {g : Graph} {startId : String} {sd gd : NodeData} {c : ANode}
    (hc : ChainOK g startId sd gd c) :
    pointsCost (reconstructPath c) = c.g ∧
      ∀ q : PathPoint, pointsCost (reconstructPath c ++ [q]) =
        c.g + euclDist c.x c.y q.x q.y := by
  induction hc with
  | start =>
    constructor
    · rfl
    · intro q
      show euclDist sd.x sd.y q.x q.y + pointsCost [q] = 0 + euclDist sd.x sd.y q.x q.y
      show euclDist sd.x sd.y q.x q.y + 0 = 0 + euclDist sd.x sd.y q.x q.y
      ring
  | @step par nid nd hpar hadj hnd ih =>
    constructor
    · rw [reconstructPath_cons, ih.2 ⟨nd.x, nd.y⟩]
      rfl
    · intro q
      rw [reconstructPath_cons, List.append_assoc,
        show ([(⟨nd.x, nd.y⟩ : PathPoint)] : List PathPoint) ++ [q] =
          (⟨nd.x, nd.y⟩ : PathPoint) :: [q] from rfl,
        pointsCost_append_cons, ih.2 ⟨nd.x, nd.y⟩]
      show _ = par.g + euclDist par.x par.y nd.x nd.y + euclDist nd.x nd.y q.x q.y
      simp only [pointsCost]
      ring

/-! ## Facts about the open-set pop -/

theorem pickMinF_perm : ∀ (l : List ANode) (cur : ANode),
    ((pickMinF cur l).1 :: (pickMinF cur l).2).Perm (cur :: l) := by
  intro l
  induction l with
  | nil =>
    intro cur
    rw [pickMinF]
  | cons a rest ih =>
    intro cur
    rw [pickMinF]
    split_ifs with h
    · simp only []
      exact (List.Perm.swap cur (pickMinF a rest).1 (pickMinF a rest).2).trans
        ((ih a).cons cur)
    · simp only []
      exact ((List.Perm.swap a (pickMinF cur rest).1 (pickMinF cur rest).2).trans
        ((ih cur).cons a)).trans (List.Perm.swap cur a rest)

theorem pickMinF_fst_mem (cur : ANode) (l : List ANode) :
    (pickMinF cur l).1 ∈ cur :: l :=
  (pickMinF_perm l cur).mem_iff.mp (List.mem_cons_self _ _)

theorem pickMinF_mem_cases (cur : ANode) (l : List ANode) (x : ANode)
    (hx : x ∈ cur :: l) : x = (pickMinF cur l).1 ∨ x ∈ (pickMinF cur l).2 :=
  List.mem_cons.mp ((pickMinF_perm l cur).symm.mem_iff.mp hx)

theorem pickMinF_snd_subset (cur : ANode) (l : List ANode) (x : ANode)
    (hx : x ∈ (pickMinF cur l).2) : x ∈ cur :: l :=
  (pickMinF_perm l cur).mem_iff.mp (List.mem_cons_of_mem _ hx)

theorem pickMinF_min : ∀ (l : List ANode) (cur x : ANode), x ∈ cur :: l →
    (pickMinF cur l).1.getF ≤ x.getF := by
  intro l
  induction l with
  | nil =>
    intro cur x hx
    rw [pickMinF]
    rcases List.mem_cons.mp hx with he | h
    · subst he
      exact le_refl _
    · exact absurd h (List.not_mem_nil x)
  | cons a rest ih =>
    intro cur x hx
    rw [pickMinF]
    split_ifs with h
    · simp only []
      rcases List.mem_cons.mp hx with he | hx'
      · subst he
        exact le_trans (ih a a (List.mem_cons_self a rest)) (le_of_lt h)
      · exact ih a x hx'
    · simp only []
      rcases List.mem_cons.mp hx with he | hx'
      · rw [he]
        exact ih cur cur (List.mem_cons_self cur rest)
      · rcases List.mem_cons.mp hx' with he2 | hx''
        · subst he2
          exact le_trans (ih cur cur (List.mem_cons_self cur rest)) (le_of_not_lt h)
        · exact ih cur x (List.mem_cons_of_mem cur hx'')

/-! ## Facts about the neighbor expansion -/

theorem expandStep_persist (g : Graph) (goalNode : ANode) (closed : List String)
    (current : ANode) (op : List ANode) (e : GraphEdge) (x : ANode) (hx : x ∈ op) :
    x ∈ expandStep g goalNode closed current op e := by
  simp only [expandStep]
  generalize (if e.fromId = current.id then e.toId else e.fromId) = nid
  split_ifs with h1
  · exact hx
  · cases hnd : g.nodes nid with
    | none => exact hx
    | some nd =>
      simp only []
      cases hfind : (op.find? fun n => n.id == nid) with
      | none => exact List.mem_append_left _ hx
      | some existing =>
        simp only []
        split_ifs with h2
        · exact hx
        · exact List.mem_append_left _ hx

theorem expandFold_persist (g : Graph) (goalNode : ANode) (closed : List String)
    (current : ANode) :
    ∀ (l : List GraphEdge) (op : List ANode) (x : ANode), x ∈ op →
      x ∈ l.foldl (expandStep g goalNode closed current) op := by
  intro l
  induction l with
  | nil => exact fun op x hx => hx
  | cons e l ih =>
    intro op x hx
    exact ih _ x (expandStep_persist g goalNode closed current op e x hx)

theorem expandStep_mem (g : Graph) (goalNode : ANode) (closed : List String)
    (current : ANode) (op : List ANode) (e : GraphEdge) (x : ANode)
    (hx : x ∈ expandStep g goalNode closed current op e) :
    x ∈ op ∨ ∃ nd, (if e.fromId = current.id then e.toId else e.fromId) ∉ closed ∧
      g.nodes (if e.fromId = current.id then e.toId else e.fromId) = some nd ∧
      x = mkNeighbor goalNode current (if e.fromId = current.id then e.toId else e.fromId) nd := by
  revert hx
  simp only [expandStep]
  generalize (if e.fromId = current.id then e.toId else e.fromId) = nid
  split_ifs with h1
  · exact fun hx => Or.inl hx
  · cases hnd : g.nodes nid with
    | none => exact fun hx => Or.inl hx
    | some nd =>
      simp only []
      cases hfind : (op.find? fun n => n.id == nid) with
      | none =>
        intro hx
        rcases List.mem_append.mp hx with h | h
        · exact Or.inl h
        · exact Or.inr ⟨nd, h1, rfl, List.mem_singleton.mp h⟩
      | some existing =>
        simp only []
        split_ifs with h2
        · exact fun hx => Or.inl hx
        · intro hx
          rcases List.mem_append.mp hx with h | h
          · exact Or.inl h
          · exact Or.inr ⟨nd, h1, rfl, List.mem_singleton.mp h⟩

theorem expandFold_mem (g : Graph) (goalNode : ANode) (closed : List String)
    (current : ANode) :
    ∀ (l : List GraphEdge),
      (∀ e ∈ l, e ∈ g.edges ∧ (e.fromId = current.id ∨ e.toId = current.id)) →
      ∀ (op : List ANode) (x : ANode), x ∈ l.foldl (expandStep g goalNode closed current) op →
        x ∈ op ∨ ∃ nid nd, Adj g current.id nid ∧ nid ∉ closed ∧ g.nodes nid = some nd ∧
          x = mkNeighbor goalNode current nid nd := by
  intro l
  induction l with
  | nil => exact fun _ op x hx => Or.inl hx
  | cons e l ih =>
    intro hl op x hx
    rw [List.foldl_cons] at hx
    rcases ih (fun e' he' => hl e' (List.mem_cons_of_mem e he')) _ x hx with h | h
    · rcases expandStep_mem g goalNode closed current op e x h with h' | ⟨nd, hnc, hnd, heq⟩
      · exact Or.inl h'
      · refine Or.inr ⟨(if e.fromId = current.id then e.toId else e.fromId), nd, ?_, hnc,
          hnd, heq⟩
        obtain ⟨hmem, hor⟩ := hl e (List.mem_cons_self e l)
        by_cases hf : e.fromId = current.id
        · rw [if_pos hf]
          exact ⟨e, hmem, Or.inl ⟨hf, rfl⟩⟩
        · rw [if_neg hf]
          rcases hor with h'' | h''
          · exact absurd h'' hf
          · exact ⟨e, hmem, Or.inr ⟨h'', rfl⟩⟩
    · exact Or.inr h

theorem expandNeighbors_persist (g : Graph) (goalNode : ANode) (closed : List String)
    (current : ANode) (op : List ANode) (x : ANode) (hx : x ∈ op) :
    x ∈ expandNeighbors g goalNode closed current op :=
  expandFold_persist g goalNode closed current _ op x hx

theorem expandNeighbors_mem (g : Graph) (goalNode : ANode) (closed : List String)
    (current : ANode) (op : List ANode) (x : ANode)
    (hx : x ∈ expandNeighbors g goalNode closed current op) :
    x ∈ op ∨ ∃ nid nd, Adj g current.id nid ∧ nid ∉ closed ∧ g.nodes nid = some nd ∧
      x = mkNeighbor goalNode current nid nd := by
  refine expandFold_mem g goalNode closed current _ ?_ op x hx
  intro e he
  rw [List.mem_filter] at he
  refine ⟨he.1, ?_⟩
  have hp := he.2
  simp only [Bool.or_eq_true, beq_iff_eq] at hp
  exact hp

theorem expandFold_witness (g : Graph) (goalNode : ANode) (closed : List String)
    (current : ANode) (v : String) (vd : NodeData) (hvne : v ≠ current.id)
    (hvc : v ∉ closed) (hvd : g.nodes v = some vd) :
    ∀ (l : List GraphEdge) (op : List ANode),
      (∃ e ∈ l, (e.fromId = current.id ∧ e.toId = v) ∨ (e.toId = current.id ∧ e.fromId = v)) →
      ∃ c ∈ l.foldl (expandStep g goalNode closed current) op, c.id = v ∧
        c.g ≤ current.g + euclDist current.x current.y vd.x vd.y := by
  intro l
  induction l with
  | nil =>
    rintro op ⟨e, he, -⟩
    exact absurd he (List.not_mem_nil e)
  | cons e l ih =>
    rintro op ⟨e', he', hor⟩
    rw [List.foldl_cons]
    rcases List.mem_cons.mp he' with rfl | hmem
    · have hnid : (if e'.fromId = current.id then e'.toId else e'.fromId) = v := by
        rcases hor with ⟨h1, h2⟩ | ⟨h1, h2⟩
        · rw [if_pos h1]
          exact h2
        · have hne : ¬ e'.fromId = current.id := by
            rw [h2]
            exact hvne
          rw [if_neg hne]
          exact h2
      have hstep : ∃ c ∈ expandStep g goalNode closed current op e', c.id = v ∧
          c.g ≤ current.g + euclDist current.x current.y vd.x vd.y := by
        simp only [expandStep, hnid]
        rw [if_neg hvc, hvd]
        simp only []
        cases hfind : (op.find? fun n => n.id == v) with
        | none =>
          exact ⟨mkNeighbor goalNode current v vd,
            List.mem_append_right _ (List.mem_singleton.mpr rfl), rfl, le_refl _⟩
        | some existing =>
          simp only []
          have hex_mem : existing ∈ op := List.mem_of_find?_eq_some hfind
          have hex_id : existing.id = v := by
            have hh := List.find?_some hfind
            simpa using hh
          split_ifs with h2
          · exact ⟨existing, hex_mem, hex_id, h2⟩
          · exact ⟨mkNeighbor goalNode current v vd,
              List.mem_append_right _ (List.mem_singleton.mpr rfl), rfl, le_refl _⟩
      obtain ⟨c, hc, hprop⟩ := hstep
      exact ⟨c, expandFold_persist g goalNode closed current l _ c hc, hprop⟩
    · exact ih _ ⟨e', hmem, hor⟩

/-! ## The A* loop invariant -/

theorem astar_L1 {g : Graph} {startId goalId : String} {sd gd : NodeData}
    {op : List ANode} {closed : List String}
    (hinv : AStarInv g startId goalId sd gd op closed)
    (hsd : g.nodes startId = some sd) :
    ∀ (P : List String) (tid : String), IsPathTo g startId tid P → tid ∉ closed →
      ∃ c ∈ op, c.getF ≤ pathCost g P +
        euclDist (coordPt g tid).x (coordPt g tid).y gd.x gd.y := by
  intro P tid hp
  induction hp with
  | single d hd =>
    intro hnc
    refine ⟨ANode.root startId sd.x sd.y 0 0 0, hinv.2.1 hnc, ?_⟩
    have h1 : (ANode.root startId sd.x sd.y 0 0 0).getF = 0 := by
      rw [ANode.getF_eq]
      show (0 : ℝ) + 0 = 0
      ring
    have h2 : pathCost g [startId] = 0 := rfl
    have h3 := euclDist_nonneg (coordPt g startId).x (coordPt g startId).y gd.x gd.y
    rw [h1, h2]
    linarith
  | @snoc u t P d hP hAdj hd ih =>
    intro hnc
    have hcostapp := isPathTo_cost_append hP t
    by_cases hu : u ∈ closed
    · obtain ⟨ud, hud⟩ := isPathTo_data hP
      obtain ⟨c, hcop, hcid, hcg⟩ := hinv.2.2.2 u hu t hAdj hnc d hd P hP ud hud
      refine ⟨c, hcop, ?_⟩
      have hchain := hinv.1 c hcop
      have hgetF := ANode.getF_eq c
      have hcu : coordPt g u = ⟨ud.x, ud.y⟩ := by rw [coordPt, hud]
      have hct : coordPt g t = ⟨d.x, d.y⟩ := by rw [coordPt, hd]
      rw [hcostapp, hcu, hct, hgetF]
      simp only []
      rcases chainOK_h_cases hchain with hh | ⟨hh0, hg0, -⟩
      · have hdata := chainOK_id_data hsd hchain
        rw [hcid] at hdata
        have hde : d = ⟨c.x, c.y⟩ := Option.some.inj (hd.symm.trans hdata)
        have hdx : d.x = c.x := by rw [hde]
        have hdy : d.y = c.y := by rw [hde]
        rw [hh, ← hdx, ← hdy]
        linarith
      · rw [hh0, hg0]
        have hn1 := pathCost_nonneg g P
        have hn2 := euclDist_nonneg ud.x ud.y d.x d.y
        have hn3 := euclDist_nonneg d.x d.y gd.x gd.y
        linarith
    · obtain ⟨c, hcop, hcf⟩ := ih hu
      refine ⟨c, hcop, ?_⟩
      have htri := euclDist_triangle (coordPt g u).x (coordPt g u).y (coordPt g t).x
        (coordPt g t).y gd.x gd.y
      rw [hcostapp]
      linarith

theorem astar_pop_opt {g : Graph} {startId goalId : String} {sd gd : NodeData}
    {op : List ANode} {closed : List String}
    (hinv : AStarInv g startId goalId sd gd op closed)
    (hsd : g.nodes startId = some sd)
    (c0 : ANode) (hc0 : c0 ∈ op) (hmin : ∀ x ∈ op, c0.getF ≤ x.getF)
    (hnc : c0.id ∉ closed) :
    ∀ P, IsPathTo g startId c0.id P → c0.g ≤ pathCost g P := by
  intro P hp
  obtain ⟨c, hcop, hcf⟩ := astar_L1 hinv hsd P c0.id hp hnc
  have h1 : c0.getF ≤ pathCost g P +
      euclDist (coordPt g c0.id).x (coordPt g c0.id).y gd.x gd.y :=
    le_trans (hmin c hcop) hcf
  have hchain := hinv.1 c0 hc0
  have hgetF := ANode.getF_eq c0
  rcases chainOK_h_cases hchain with hh | ⟨hh0, hg0, hid0⟩
  · have hdata := chainOK_id_data hsd hchain
    have hcpt : coordPt g c0.id = ⟨c0.x, c0.y⟩ := by rw [coordPt, hdata]
    rw [hcpt] at h1
    simp only [] at h1
    rw [hgetF, hh] at h1
    linarith
  · rw [hg0]
    exact pathCost_nonneg g P

theorem astar_inv_step {g : Graph} {startId goalId : String} {sd gd : NodeData}
    {op : List ANode} {closed : List String}
    (hinv : AStarInv g startId goalId sd gd op closed)
    (hsd : g.nodes startId = some sd)
    (c0 : ANode) (hc0 : c0 ∈ op) (hmin : ∀ x ∈ op, c0.getF ≤ x.getF)
    (hne : c0.id ≠ goalId) (rem : List ANode)
    (hcases : ∀ x ∈ op, x = c0 ∨ x ∈ rem) (hsub : ∀ x ∈ rem, x ∈ op) :
    AStarInv g startId goalId sd gd
      (expandNeighbors g (.root goalId gd.x gd.y 0 0 0) (c0.id :: closed) c0 rem)
      (c0.id :: closed) := by
  refine ⟨?_, ?_, ?_, ?_⟩
  · intro c hc
    rcases expandNeighbors_mem _ _ _ _ _ _ hc with h | ⟨nid, nd, hadj, hncl, hnd, heq⟩
    · exact hinv.1 c (hsub c h)
    · subst heq
      exact ChainOK.step (hinv.1 c0 hc0) hadj hnd
  · intro hs
    simp only [List.mem_cons, not_or] at hs
    have hmem := hinv.2.1 hs.2
    rcases hcases _ hmem with heq | hrem
    · exfalso
      apply hs.1
      rw [← heq]
      rfl
    · exact expandNeighbors_persist _ _ _ _ _ _ hrem
  · simp only [List.mem_cons, not_or]
    exact ⟨fun h => hne h.symm, hinv.2.2.1⟩
  · intro id hid v hadj hv vd hvd P hP ud hud
    have hv' : v ≠ c0.id ∧ v ∉ closed := by
      simp only [List.mem_cons, not_or] at hv
      exact hv
    have hvcons : v ∉ c0.id :: closed := by
      simp only [List.mem_cons, not_or]
      exact hv'
    rcases List.mem_cons.mp hid with heq0 | hidold
    · subst heq0
      by_cases hc0closed : c0.id ∈ closed
      · obtain ⟨c, hcop, hcid, hcg⟩ :=
          hinv.2.2.2 c0.id hc0closed v hadj hv'.2 vd hvd P hP ud hud
        have hcne : c ≠ c0 := by
          intro h
          apply hv'.1
          rw [← hcid, h]
        rcases hcases c hcop with h | h
        · exact absurd h hcne
        · exact ⟨c, expandNeighbors_persist _ _ _ _ _ _ h, hcid, hcg⟩
      · have hpopt := astar_pop_opt hinv hsd c0 hc0 hmin hc0closed P hP
        obtain ⟨e, he, hor⟩ := hadj
        have hememf : e ∈ g.edges.filter
            (fun e => e.fromId == c0.id || e.toId == c0.id) := by
          rw [List.mem_filter]
          refine ⟨he, ?_⟩
          simp only [Bool.or_eq_true, beq_iff_eq]
          rcases hor with ⟨h1, -⟩ | ⟨h1, -⟩
          · exact Or.inl h1
          · exact Or.inr h1
        obtain ⟨c, hcmem, hcid, hcg⟩ := expandFold_witness g
          (.root goalId gd.x gd.y 0 0 0) (c0.id :: closed) c0 v vd hv'.1 hvcons hvd
          (g.edges.filter (fun e => e.fromId == c0.id || e.toId == c0.id)) rem
          ⟨e, hememf, hor⟩
        refine ⟨c, hcmem, hcid, ?_⟩
        have hdata := chainOK_id_data hsd (hinv.1 c0 hc0)
        have hude : ud = ⟨c0.x, c0.y⟩ := Option.some.inj (hud.symm.trans hdata)
        rw [hude]
        simp only []
        linarith
    · obtain ⟨c, hcop, hcid, hcg⟩ := hinv.2.2.2 id hidold v hadj hv'.2 vd hvd P hP ud hud
      have hcne : c ≠ c0 := by
        intro h
        apply hv'.1
        rw [← hcid, h]
      rcases hcases c hcop with h | h
      · exact absurd h hcne
      · exact ⟨c, expandNeighbors_persist _ _ _ _ _ _ h, hcid, hcg⟩

theorem aStar_initial_inv (g : Graph) (startId goalId : String) (sd gd : NodeData) :
    AStarInv g startId goalId sd gd [ANode.root startId sd.x sd.y 0 0 0] [] := by
  refine ⟨?_, ?_, ?_, ?_⟩
  · intro c hc
    rw [List.mem_singleton] at hc
    subst hc
    exact ChainOK.start
  · intro _
    exact List.mem_singleton.mpr rfl
  · exact List.not_mem_nil goalId
  · intro id hid
    exact absurd hid (List.not_mem_nil id)

theorem aStarLoop_correct (g : Graph) (startId goalId : String) (sd gd : NodeData)
    (hsd : g.nodes startId = some sd) (_hgd : g.nodes goalId = some gd) :
    ∀ (fuel : ℕ) (op : List ANode) (closed : List String),
      AStarInv g startId goalId sd gd op closed →
      ∀ p, aStarLoop g goalId (.root goalId gd.x gd.y 0 0 0) fuel op closed =
          some (some p) →
        (∃ ids, IsPathTo g startId goalId ids ∧ p = coordsOf g ids) ∧
        ∀ q, IsPathTo g startId goalId q → pointsCost p ≤ pathCost g q := by
  intro fuel
  induction fuel with
  | zero =>
    intro op closed hinv p hres
    rw [aStarLoop] at hres
    exact Option.noConfusion hres
  | succ fuel ih =>
    intro op closed hinv p hres
    cases op with
    | nil =>
      rw [aStarLoop] at hres
      exact Option.noConfusion (Option.some.inj hres)
    | cons a rest =>
      rw [aStarLoop] at hres
      simp only [] at hres
      by_cases hgoal : (pickMinF a rest).1.id = goalId
      · rw [if_pos hgoal] at hres
        have hp : p = reconstructPath (pickMinF a rest).1 :=
          (Option.some.inj (Option.some.inj hres)).symm
        have hc0mem := pickMinF_fst_mem a rest
        have hchain := hinv.1 _ hc0mem
        constructor
        · refine ⟨chainIds (pickMinF a rest).1, ?_, ?_⟩
          · have hpath := chainOK_path hsd hchain
            rwa [hgoal] at hpath
          · rw [hp]
            exact chainOK_coords hsd hchain
        · intro q hq
          have hcost := (chainOK_cost hchain).1
          rw [hp, hcost]
          have hnc : (pickMinF a rest).1.id ∉ closed := by
            rw [hgoal]
            exact hinv.2.2.1
          refine astar_pop_opt hinv hsd _ hc0mem
            (fun x hx => pickMinF_min rest a x hx) hnc q ?_
          rwa [hgoal]
      · rw [if_neg hgoal] at hres
        exact ih _ _ (astar_inv_step hinv hsd (pickMinF a rest).1 (pickMinF_fst_mem a rest)
          (fun x hx => pickMinF_min rest a x hx) hgoal (pickMinF a rest).2
          (fun x hx => pickMinF_mem_cases a rest x hx)
          (fun x hx => pickMinF_snd_subset a rest x hx)) p hres

/-- Claim C1: for every graph with strictly positive edge weights containing
both endpoints, every path `aStar` returns has total cost (sum of
straight-line distances along its points) at most the cost of every valid path
between the same two nodes. -/
theorem aStar_path_is_optimal (g : Graph) (startId goalId : String) (fuel : ℕ)
    (p : List PathPoint)
    (_hpos : ∀ e ∈ g.edges, 0 < e.distance)
    (hs : (g.nodes startId).isSome) (ht : (g.nodes goalId).isSome)
    (hret : aStar g startId goalId fuel = some (some p)) :
    ∀ q, IsPathTo g startId goalId q → pointsCost p ≤ pathCost g q := by
  obtain ⟨sd, hsd⟩ := Option.isSome_iff_exists.mp hs
  obtain ⟨gd, hgd⟩ := Option.isSome_iff_exists.mp ht
  simp only [aStar, hsd, hgd] at hret
  exact (aStarLoop_correct g startId goalId sd gd hsd hgd fuel _ []
    (aStar_initial_inv g startId goalId sd gd) p hret).2

/-- Witness for C1 at a one-node graph (the returned single-point path has
cost 0, no other path can be cheaper). -/
theorem aStar_path_is_optimal_witness :
    pointsCost [⟨(0 : ℝ), (0 : ℝ)⟩] ≤
      pathCost ⟨fun i => if i = "A" then some ⟨0, 0⟩ else none, []⟩ ["A"] :=
  aStar_path_is_optimal ⟨fun i => if i = "A" then some ⟨0, 0⟩ else none, []⟩ "A" "A" 1
    [⟨0, 0⟩] (fun e he => absurd he (List.not_mem_nil e)) (by simp) (by simp)
    (by simp [aStar, aStarLoop, pickMinF, ANode.id, reconstructPath])
    ["A"] (IsPathTo.single ⟨0, 0⟩ (by simp))

theorem isPathTo_no_edges {g : Graph} (hE : g.edges = []) {s t : String}
    {P : List String} (h : IsPathTo g s t P) : t = s := by
  induction h with
  | single d hd => rfl
  | snoc d hP hAdj hd ih =>
    obtain ⟨e, he, -⟩ := hAdj
    rw [hE] at he
    exact absurd he (List.not_mem_nil e)

/-- Claim C6: `aStar` returns NotFound (`null`) whenever either endpoint id is
missing; any path it does return is a complete valid path from the start node
to the goal node (never a partial path); hence for disconnected endpoints no
path is ever returned — whenever the loop produces a result at all, that
result is NotFound. -/
theorem aStar_notfound_or_complete (g : Graph) (startId goalId : String) (fuel : ℕ) :
    ((g.nodes startId = none ∨ g.nodes goalId = none) →
        aStar g startId goalId fuel = some none) ∧
    (∀ p, aStar g startId goalId fuel = some (some p) →
        ∃ ids, IsPathTo g startId goalId ids ∧ p = coordsOf g ids) ∧
    ((¬ ∃ ids, IsPathTo g startId goalId ids) →
        ∀ p, aStar g startId goalId fuel ≠ some (some p)) := by
  have hsound : ∀ p, aStar g startId goalId fuel = some (some p) →
      ∃ ids, IsPathTo g startId goalId ids ∧ p = coordsOf g ids := by
    intro p hret
    cases hsd : g.nodes startId with
    | none => simp [aStar, hsd] at hret
    | some sd =>
      cases hgd : g.nodes goalId with
      | none => simp [aStar, hsd, hgd] at hret
      | some gd =>
        simp only [aStar, hsd, hgd] at hret
        exact (aStarLoop_correct g startId goalId sd gd hsd hgd fuel _ []
          (aStar_initial_inv g startId goalId sd gd) p hret).1
  refine ⟨?_, hsound, ?_⟩
  · rintro (h | h)
    · simp [aStar, h]
    · cases hsd : g.nodes startId with
      | none => simp [aStar, hsd]
      | some sd => simp [aStar, hsd, h]
  · intro hnp p hret
    obtain ⟨ids, hids, -⟩ := hsound p hret
    exact hnp ⟨ids, hids⟩

/-- Witness for C6: a two-node graph with no edges is disconnected, so no call
ever returns a path. -/
theorem aStar_notfound_or_complete_witness :
    ∀ p, aStar ⟨fun i => if i = "A" then some ⟨0, 0⟩ else
        if i = "B" then some ⟨1, 0⟩ else none, []⟩ "A" "B" 5 ≠ some (some p) := by
  refine (aStar_notfound_or_complete _ "A" "B" 5).2.2 ?_
  rintro ⟨ids, h⟩
  have hBA : "B" = "A" := isPathTo_no_edges rfl h
  exact absurd hBA (by decide)

end





